import Mathlib

/-!
Verification development for the TaskUI repository.

The Python sources under src/ are shallowly embedded below:
* src/core/randomization.py — weighted trial-schedule generation,
* src/core/timing.py — countdown primitives (Qt timer and blocking loop),
* src/gostop/gui/gui.py — the discrete-trial runner (outcome recording,
  finish/abort finalization),
* src/rhythm/gui/gui.py — the periodic-cue phase loop.

Python floats are modelled as rationals (ℚ); Python dicts as partial maps
`ℕ → Option ℚ`; the random number generator and the monotonic clock as
explicit streams passed in as arguments, so every definition is executable.
-/

/-- Python `dict.get(d, dflt)` on a digit-weight map. -/
def dictGet (w : ℕ → Option ℚ) (d : ℕ) (dflt : ℚ) : ℚ :=
  (w d).getD dflt

/-- Embeds `compute_go_ratio` (src/core/randomization.py, lines 18-23).
Sums `max(digit_weights.get(d, 0.0), 0.0)` over each class, raises
`ValueError` (modelled as `Except.error`) when either total is ≤ 0, and
otherwise returns `total_go / (total_go + total_nogo)`.  Named
`compute_go_fraction` here. -/
def compute_go_fraction (go nogo : List ℕ) (w : ℕ → Option ℚ) : Except String ℚ :=
  let total_go := (go.map (fun d => max (dictGet w d 0) 0)).sum
  let total_nogo := (nogo.map (fun d => max (dictGet w d 0) 0)).sum
  if total_go ≤ 0 ∨ total_nogo ≤ 0 then
    Except.error "Non-zero weights required for both Go and No-Go digits."
  else
    Except.ok (total_go / (total_go + total_nogo))

/-- Embeds `normalize_weights` (src/core/randomization.py, lines 11-15). -/
def normalize_weights (ws : List ℚ) : List ℚ :=
  let total := ws.sum
  if total ≤ 0 then ws.map (fun _ => 0) else ws.map (fun x => x / total)

deriving instance DecidableEq for Except

/-- Python 3's built-in `round` on a rational value: round half to even
(banker's rounding).  Uses the executable `Rat.floor`. -/
def pyRound (q : ℚ) : ℤ :=
  if q - q.floor < 1/2 then q.floor
  else if (1 : ℚ)/2 < q - q.floor then q.floor + 1
  else if q.floor % 2 = 0 then q.floor else q.floor + 1

/-- `Rat.floor` agrees with the `Int.floor` of the `FloorRing` instance. -/
lemma ratFloor_eq_intFloor (q : ℚ) : q.floor = ⌊q⌋ := rfl

example : pyRound 1 = 1 := by with_unfolding_all decide
example : pyRound (3/2) = 2 := by with_unfolding_all decide
example : pyRound (5/2) = 2 := by with_unfolding_all decide
example : pyRound (8 * (3/4)) = 6 := by with_unfolding_all decide
example : compute_go_fraction [0, 1, 2] [9] (fun _ => some 1) = Except.ok (3/4) := by
  with_unfolding_all decide

/-- One scheduled trial: the digit to display and its Go/No-Go class
(the dicts built at src/core/randomization.py, lines 67 and 70). -/
structure Trial where
  digit : ℕ
  is_go : Bool
deriving DecidableEq

/-- Embeds `weighted_sample` (src/core/randomization.py, lines 7-8).
`random.choices` returns one element of `candidates`; the random draw is
abstracted into the index `r`, reduced modulo the number of candidates, so
any candidate is a possible outcome.  The weight list only shapes the
distribution and is kept as an (unused) argument for faithfulness. -/
def weighted_sample (candidates : List ℕ) (_ws : List ℚ) (r : ℕ) : ℕ :=
  candidates.getD (r % candidates.length) 0

/-- Embeds `random.shuffle` (called at src/core/randomization.py, line 72):
a selection shuffle driven by the index stream `r`.  At each step the element
at index `r k mod length` is moved to the front and removed; with fuel at
least the list length, the result is a permutation of the input and every
permutation is realizable by some stream. -/
def shuffleSel (r : ℕ → ℕ) : ℕ → ℕ → List Trial → List Trial
  | 0, _, l => l
  | _fuel + 1, _k, [] => []
  | fuel + 1, k, a :: as =>
    let l := a :: as
    let i := r k % l.length
    l.getD i a :: shuffleSel r fuel (k + 1) (l.eraseIdx i)

/-- Embeds `generate_trial_schedule` (src/core/randomization.py, lines
26-73).  `pick` is the stream of random draws used by `weighted_sample`
(one per generated trial) and `shuf` the stream driving the final shuffle.
The per-class mean of `int(round(...))` and the clamping follow lines
38-40; candidate filtering with default weight `1.0` follows lines 42-59. -/
def generate_trial_schedule (go nogo : List ℕ) (w : ℕ → Option ℚ)
    (gofrac : ℚ) (n_trials_per_block : ℕ) (pick : ℕ → ℕ) (shuf : ℕ → ℕ) :
    Except String (List Trial) :=
  if go.any (fun d => nogo.contains d) then
    Except.error "Digits cannot be both Go and No-Go."
  else if go.isEmpty ∨ nogo.isEmpty then
    Except.error "At least one Go digit and one No-Go digit are required."
  else
    let n_go : ℕ :=
      (max 0 (min (pyRound ((n_trials_per_block : ℚ) * gofrac)) (n_trials_per_block : ℤ))).toNat
    let n_nogo : ℕ := n_trials_per_block - n_go
    let go_candidates := go.filter (fun d => 0 < max (dictGet w d 1) 0)
    let go_ws := normalize_weights (go_candidates.map (fun d => max (dictGet w d 1) 0))
    let nogo_candidates := nogo.filter (fun d => 0 < max (dictGet w d 1) 0)
    let nogo_ws := normalize_weights (nogo_candidates.map (fun d => max (dictGet w d 1) 0))
    if go_candidates.isEmpty ∨ nogo_candidates.isEmpty then
      Except.error "Non-zero weights are required for Go and No-Go digits."
    else
      let go_trials := (List.range n_go).map
        (fun k => Trial.mk (weighted_sample go_candidates go_ws (pick k)) true)
      let nogo_trials := (List.range n_nogo).map
        (fun k => Trial.mk (weighted_sample nogo_candidates nogo_ws (pick (n_go + k))) false)
      let trials := go_trials ++ nogo_trials
      Except.ok (shuffleSel shuf trials.length 0 trials)

example :
    generate_trial_schedule [0] [9] (fun _ => none) (1/2) 2 (fun k => k) (fun k => k) =
      Except.ok [Trial.mk 0 true, Trial.mk 9 false] := by
  with_unfolding_all decide

lemma pyRound_eq_floor_or (q : ℚ) : pyRound q = ⌊q⌋ ∨ pyRound q = ⌊q⌋ + 1 := by
  unfold pyRound
  rw [ratFloor_eq_intFloor]
  split_ifs <;> simp

lemma pyRound_nonneg (q : ℚ) (h : 0 < q) : 0 ≤ pyRound q := by
  have hf : (0 : ℤ) ≤ ⌊q⌋ := Int.floor_nonneg.mpr h.le
  rcases pyRound_eq_floor_or q with h1 | h1 <;> omega

lemma pyRound_le (q : ℚ) (z : ℤ) (h : q < z) : pyRound q ≤ z := by
  have hf : ⌊q⌋ < z := Int.floor_lt.mpr (by exact_mod_cast h)
  rcases pyRound_eq_floor_or q with h1 | h1 <;> omega

lemma countP_eraseIdx_getD (p : Trial → Bool) (a : Trial) :
    ∀ (l : List Trial) (i : ℕ), i < l.length →
      (l.eraseIdx i).countP p + (if p (l.getD i a) then 1 else 0) = l.countP p
  | [], i, h => absurd h (by simp)
  | b :: bs, 0, _ => by
    simp [List.countP_cons]
  | b :: bs, i + 1, h => by
    have ih := countP_eraseIdx_getD p a bs i (by simpa using h)
    simp only [List.eraseIdx_cons_succ, List.countP_cons, List.getD_cons_succ]
    omega

lemma shuffleSel_countP (r : ℕ → ℕ) (p : Trial → Bool) :
    ∀ (fuel k : ℕ) (l : List Trial),
      (shuffleSel r fuel k l).countP p = l.countP p
  | 0, _, _ => rfl
  | _fuel + 1, _k, [] => rfl
  | fuel + 1, k, a :: as => by
    have hlt : r k % (a :: as).length < (a :: as).length :=
      Nat.mod_lt _ (by simp)
    have ih := shuffleSel_countP r p fuel (k + 1) ((a :: as).eraseIdx (r k % (a :: as).length))
    have herase := countP_eraseIdx_getD p a (a :: as) (r k % (a :: as).length) hlt
    simp only [shuffleSel, List.countP_cons, List.length_cons] at *
    omega

lemma length_eraseIdx_getD :
    ∀ (l : List Trial) (i : ℕ), i < l.length → (l.eraseIdx i).length + 1 = l.length
  | [], i, h => absurd h (by simp)
  | _b :: _bs, 0, _ => by simp
  | b :: bs, i + 1, h => by
    have ih := length_eraseIdx_getD bs i (by simpa using h)
    simp only [List.eraseIdx_cons_succ, List.length_cons]
    omega

lemma shuffleSel_length (r : ℕ → ℕ) :
    ∀ (fuel k : ℕ) (l : List Trial), (shuffleSel r fuel k l).length = l.length
  | 0, _, _ => rfl
  | _fuel + 1, _k, [] => rfl
  | fuel + 1, k, a :: as => by
    have hlt : r k % (a :: as).length < (a :: as).length :=
      Nat.mod_lt _ (by simp)
    have ih := shuffleSel_length r fuel (k + 1) ((a :: as).eraseIdx (r k % (a :: as).length))
    have herase := length_eraseIdx_getD (a :: as) (r k % (a :: as).length) hlt
    simp only [shuffleSel, List.length_cons] at *
    omega

/-- Under a valid configuration the schedule generator succeeds, and the
class counts are exactly the clamped rounded split of lines 38-40 of
src/core/randomization.py. -/
lemma generate_trial_schedule_ok
    (go nogo : List ℕ) (w : ℕ → Option ℚ) (gofrac : ℚ) (n : ℕ) (pick shuf : ℕ → ℕ)
    (hdisj : ∀ d ∈ go, d ∉ nogo)
    (hgo : ∃ d ∈ go, 0 < dictGet w d 1) (hnogo : ∃ d ∈ nogo, 0 < dictGet w d 1)
    (hn : 0 < n) (hfrac0 : 0 < gofrac) (hfrac1 : gofrac < 1) :
    ∃ ts, generate_trial_schedule go nogo w gofrac n pick shuf = Except.ok ts ∧
      ts.length = n ∧
      ts.countP (fun t => t.is_go) = (pyRound ((n : ℚ) * gofrac)).toNat ∧
      ts.countP (fun t => !t.is_go) = n - (pyRound ((n : ℚ) * gofrac)).toNat ∧
      (pyRound ((n : ℚ) * gofrac)).toNat ≤ n := by
  obtain ⟨dg, hdg, hwg⟩ := hgo
  obtain ⟨dn, hdn, hwn⟩ := hnogo
  have hq0 : (0 : ℚ) < (n : ℚ) * gofrac :=
    mul_pos (by exact_mod_cast hn) hfrac0
  have hqn : (n : ℚ) * gofrac < ((n : ℤ) : ℚ) := by
    push_cast
    exact mul_lt_of_lt_one_right (by exact_mod_cast hn) hfrac1
  have hpr0 : 0 ≤ pyRound ((n : ℚ) * gofrac) := pyRound_nonneg _ hq0
  have hprn : pyRound ((n : ℚ) * gofrac) ≤ (n : ℤ) := pyRound_le _ _ hqn
  have hclamp : max 0 (min (pyRound ((n : ℚ) * gofrac)) (n : ℤ)) =
      pyRound ((n : ℚ) * gofrac) := by omega
  have hngole : (pyRound ((n : ℚ) * gofrac)).toNat ≤ n := by omega
  have hov : (go.any fun d => nogo.contains d) = false := by
    simp only [List.any_eq_false]
    intro d hd
    simpa using hdisj d hd
  have hgone : go.isEmpty = false := by
    cases go with
    | nil => simp at hdg
    | cons a as => simp
  have hnogone : nogo.isEmpty = false := by
    cases nogo with
    | nil => simp at hdn
    | cons a as => simp
  have hgocand : ((go.filter fun d => 0 < max (dictGet w d 1) 0).isEmpty) = false := by
    simp only [List.isEmpty_eq_false]
    intro hc
    have hm : dg ∈ go.filter fun d => 0 < max (dictGet w d 1) 0 :=
      List.mem_filter.mpr
        ⟨hdg, by simp only [decide_eq_true_eq]; exact lt_max_iff.mpr (Or.inl hwg)⟩
    rw [hc] at hm
    simp at hm
  have hnogocand : ((nogo.filter fun d => 0 < max (dictGet w d 1) 0).isEmpty) = false := by
    simp only [List.isEmpty_eq_false]
    intro hc
    have hm : dn ∈ nogo.filter fun d => 0 < max (dictGet w d 1) 0 :=
      List.mem_filter.mpr
        ⟨hdn, by simp only [decide_eq_true_eq]; exact lt_max_iff.mpr (Or.inl hwn)⟩
    rw [hc] at hm
    simp at hm
  rw [generate_trial_schedule]
  simp only [hov, hgone, hnogone, hgocand, hnogocand, hclamp, Bool.false_eq_true, or_self,
    if_false]
  refine ⟨_, rfl, ?_, ?_, ?_, ?_⟩
  · rw [shuffleSel_length, List.length_append, List.length_map, List.length_map,
      List.length_range, List.length_range]
    omega
  · rw [shuffleSel_countP, List.countP_append]
    have h1 : ((List.range (pyRound ((n : ℚ) * gofrac)).toNat).map fun k =>
        Trial.mk (weighted_sample (go.filter fun d => 0 < max (dictGet w d 1) 0)
          (normalize_weights ((go.filter fun d => 0 < max (dictGet w d 1) 0).map
            fun d => max (dictGet w d 1) 0)) (pick k)) true).countP
          (fun t => t.is_go) = (pyRound ((n : ℚ) * gofrac)).toNat := by
      rw [List.countP_eq_length.mpr]
      · simp
      · intro a ha
        obtain ⟨k, _, rfl⟩ := List.mem_map.mp ha
        rfl
    have h2 : ∀ (m : ℕ) (cs : List ℕ) (ws : List ℚ),
        (((List.range m).map fun k =>
          Trial.mk (weighted_sample cs ws (pick ((pyRound ((n : ℚ) * gofrac)).toNat + k)))
            false).countP (fun t => t.is_go)) = 0 := by
      intro m cs ws
      rw [List.countP_eq_zero]
      intro a ha
      obtain ⟨k, _, rfl⟩ := List.mem_map.mp ha
      simp [Trial.is_go]
    rw [h1, h2]
    omega
  · rw [shuffleSel_countP, List.countP_append]
    have h1 : ((List.range (pyRound ((n : ℚ) * gofrac)).toNat).map fun k =>
        Trial.mk (weighted_sample (go.filter fun d => 0 < max (dictGet w d 1) 0)
          (normalize_weights ((go.filter fun d => 0 < max (dictGet w d 1) 0).map
            fun d => max (dictGet w d 1) 0)) (pick k)) true).countP
          (fun t => !t.is_go) = 0 := by
      rw [List.countP_eq_zero]
      intro a ha
      obtain ⟨k, _, rfl⟩ := List.mem_map.mp ha
      simp [Trial.is_go]
    have h2 : ∀ (cs : List ℕ) (ws : List ℚ),
        (((List.range (n - (pyRound ((n : ℚ) * gofrac)).toNat)).map fun k =>
          Trial.mk (weighted_sample cs ws (pick ((pyRound ((n : ℚ) * gofrac)).toNat + k)))
            false).countP (fun t => !t.is_go)) = n - (pyRound ((n : ℚ) * gofrac)).toNat := by
      intro cs ws
      rw [List.countP_eq_length.mpr]
      · simp
      · intro a ha
        obtain ⟨k, _, rfl⟩ := List.mem_map.mp ha
        rfl
    rw [h1, h2]
    omega
  · exact hngole

/-- The spec's class weight total: the sum of the strictly positive weights
among a digit list (a digit missing from the map contributes 0). -/
def sumPos (ds : List ℕ) (w : ℕ → Option ℚ) : ℚ :=
  ((ds.map (fun d => dictGet w d 0)).filter (fun x => 0 < x)).sum

lemma sum_max_eq_sumPos (w : ℕ → Option ℚ) :
    ∀ ds : List ℕ, ((ds.map (fun d => max (dictGet w d 0) 0)).sum) = sumPos ds w
  | [] => rfl
  | d :: ds => by
    have ih := sum_max_eq_sumPos w ds
    simp only [sumPos, List.map_cons, List.filter_cons, List.sum_cons] at *
    by_cases h : 0 < dictGet w d 0
    · rw [if_pos (by simpa using h), List.sum_cons, max_eq_left h.le, ih]
    · rw [if_neg (by simpa using h), max_eq_right (not_lt.mp h), ih, zero_add]

/-- C1: for every valid configuration (disjoint non-empty go/nogo digit
lists, at least one strictly positive weight per class, a positive trial
count, and a go ratio strictly between 0 and 1), `generate_trial_schedule`
returns exactly `n_trials_per_block` entries, the go count plus the nogo
count equals `n_trials_per_block`, and the go count is within ±1 of
`round(n_trials_per_block * go_ratio)`; moreover, in the concrete example
go = [0,1,2], nogo = [9] with all weights 1, the computed ratio is 3/4 and
a block of 8 trials contains 6 go and 2 nogo entries. -/
theorem C1_schedule_counts
    (go nogo : List ℕ) (w : ℕ → Option ℚ) (gofrac : ℚ) (n : ℕ) (pick shuf : ℕ → ℕ)
    (hdisj : ∀ d ∈ go, d ∉ nogo)
    (hgo : ∃ d ∈ go, 0 < dictGet w d 1) (hnogo : ∃ d ∈ nogo, 0 < dictGet w d 1)
    (hn : 0 < n) (hfrac0 : 0 < gofrac) (hfrac1 : gofrac < 1) :
    (∃ ts, generate_trial_schedule go nogo w gofrac n pick shuf = Except.ok ts ∧
        ts.length = n ∧
        ts.countP (fun t => t.is_go) + ts.countP (fun t => !t.is_go) = n ∧
        |(ts.countP (fun t => t.is_go) : ℤ) - pyRound ((n : ℚ) * gofrac)| ≤ 1) ∧
    compute_go_fraction [0, 1, 2] [9] (fun _ => some 1) = Except.ok (3/4) ∧
    (∃ ts, generate_trial_schedule [0, 1, 2] [9] (fun _ => some 1) (3/4) 8 pick shuf =
        Except.ok ts ∧
        ts.countP (fun t => t.is_go) = 6 ∧ ts.countP (fun t => !t.is_go) = 2) := by
  refine ⟨?_, by with_unfolding_all decide, ?_⟩
  · obtain ⟨ts, hok, hlen, hgoc, hnogoc, hle⟩ :=
      generate_trial_schedule_ok go nogo w gofrac n pick shuf hdisj hgo hnogo hn hfrac0 hfrac1
    refine ⟨ts, hok, hlen, by omega, ?_⟩
    have heq : (ts.countP (fun t => t.is_go) : ℤ) = pyRound ((n : ℚ) * gofrac) := by
      rw [hgoc]
      have := pyRound_nonneg ((n : ℚ) * gofrac) (mul_pos (by exact_mod_cast hn) hfrac0)
      omega
    rw [heq]
    simp
  · obtain ⟨ts, hok, hlen, hgoc, hnogoc, hle⟩ :=
      generate_trial_schedule_ok [0, 1, 2] [9] (fun _ => some 1) (3/4) 8 pick shuf
        (by decide) (by with_unfolding_all decide) (by with_unfolding_all decide)
        (by decide) (by with_unfolding_all decide) (by with_unfolding_all decide)
    refine ⟨ts, hok, ?_, ?_⟩
    · rw [hgoc]
      with_unfolding_all decide
    · rw [hnogoc]
      with_unfolding_all decide

/-- Witness for C1: the concrete example configuration satisfies all the
hypotheses and yields the 6/2 split. -/
theorem C1_schedule_counts_witness :
    ∃ ts, generate_trial_schedule [0, 1, 2] [9] (fun _ => some 1) (3/4) 8
        (fun k => k) (fun k => k) = Except.ok ts ∧
      ts.countP (fun t => t.is_go) = 6 ∧ ts.countP (fun t => !t.is_go) = 2 :=
  (C1_schedule_counts [0, 1, 2] [9] (fun _ => some 1) (3/4) 8 (fun k => k) (fun k => k)
    (by decide) (by with_unfolding_all decide) (by with_unfolding_all decide)
    (by decide) (by with_unfolding_all decide) (by with_unfolding_all decide)).2.2

/-- C2: `compute_go_ratio` returns `totalGo / (totalGo + totalNogo)` where
each class total sums only the strictly positive weights of that class's
digits (a digit missing from the map contributes 0); whenever both totals
are strictly positive the returned ratio is strictly between 0 and 1 and no
error is raised, and whenever either total is ≤ 0 — which includes an empty
digit list — it raises the InvalidConfig error (ValueError). -/
theorem C2_go_fraction_spec (go nogo : List ℕ) (w : ℕ → Option ℚ) :
    (0 < sumPos go w → 0 < sumPos nogo w →
      compute_go_fraction go nogo w =
          Except.ok (sumPos go w / (sumPos go w + sumPos nogo w)) ∧
        0 < sumPos go w / (sumPos go w + sumPos nogo w) ∧
        sumPos go w / (sumPos go w + sumPos nogo w) < 1) ∧
    (sumPos go w ≤ 0 ∨ sumPos nogo w ≤ 0 →
      compute_go_fraction go nogo w =
        Except.error "Non-zero weights required for both Go and No-Go digits.") ∧
    (go = [] ∨ nogo = [] →
      compute_go_fraction go nogo w =
        Except.error "Non-zero weights required for both Go and No-Go digits.") := by
  have herr : sumPos go w ≤ 0 ∨ sumPos nogo w ≤ 0 →
      compute_go_fraction go nogo w =
        Except.error "Non-zero weights required for both Go and No-Go digits." := by
    intro h
    have hcond : ((go.map (fun d => max (dictGet w d 0) 0)).sum ≤ 0 ∨
        (nogo.map (fun d => max (dictGet w d 0) 0)).sum ≤ 0) := by
      rw [sum_max_eq_sumPos, sum_max_eq_sumPos]
      exact h
    simp only [compute_go_fraction]
    rw [if_pos hcond]
  refine ⟨?_, herr, ?_⟩
  · intro hg hn2
    have hsum : 0 < sumPos go w + sumPos nogo w := add_pos hg hn2
    have hcond : ¬((go.map (fun d => max (dictGet w d 0) 0)).sum ≤ 0 ∨
        (nogo.map (fun d => max (dictGet w d 0) 0)).sum ≤ 0) := by
      rw [sum_max_eq_sumPos, sum_max_eq_sumPos]
      push_neg
      exact ⟨hg, hn2⟩
    refine ⟨?_, div_pos hg hsum, (div_lt_one hsum).mpr (lt_add_of_pos_right _ hn2)⟩
    simp only [compute_go_fraction]
    rw [if_neg hcond, sum_max_eq_sumPos, sum_max_eq_sumPos]
  · intro h
    apply herr
    rcases h with h | h
    · subst h
      exact Or.inl (le_of_eq rfl)
    · subst h
      exact Or.inr (le_of_eq rfl)

/-- Witness for C2 at a concrete configuration with positive totals. -/
theorem C2_go_fraction_spec_witness :
    compute_go_fraction [1] [9] (fun _ => some 1) = Except.ok (1/2) := by
  have h := (C2_go_fraction_spec [1] [9] (fun _ => some 1)).1
    (by with_unfolding_all decide) (by with_unfolding_all decide)
  rw [h.1]
  with_unfolding_all decide

/-- C3 counterexample: overlapping digit sets are NOT rejected at the
ratio-computation step.  With go = nogo = [1] and every weight 1, both
class totals are positive, the sets intersect, and `compute_go_ratio`
returns 1/2 without raising InvalidConfig. -/
theorem C3_overlap_not_checked_by_fraction :
    compute_go_fraction [1] [1] (fun _ => some 1) = Except.ok (1/2) := by
  with_unfolding_all decide

/-- C3 amended: overlapping go/nogo digit sets are rejected with the
InvalidConfig error by `generate_trial_schedule` (the schedule-generation
step), regardless of the weight map; `compute_go_ratio` itself performs no
overlap check. -/
theorem C3_overlap_rejected_at_schedule
    (go nogo : List ℕ) (w : ℕ → Option ℚ) (gofrac : ℚ) (n : ℕ) (pick shuf : ℕ → ℕ)
    (d : ℕ) (hdgo : d ∈ go) (hdnogo : d ∈ nogo) :
    generate_trial_schedule go nogo w gofrac n pick shuf =
      Except.error "Digits cannot be both Go and No-Go." := by
  have hov : (go.any fun x => nogo.contains x) = true := by
    rw [List.any_eq_true]
    exact ⟨d, hdgo, by simpa using hdnogo⟩
  rw [generate_trial_schedule]
  rw [if_pos hov]

/-- Witness for the amended C3 theorem at a concrete overlapping input. -/
theorem C3_overlap_rejected_witness :
    generate_trial_schedule [1] [1] (fun _ => some 1) (1/2) 4 (fun k => k) (fun k => k) =
      Except.error "Digits cannot be both Go and No-Go." :=
  C3_overlap_rejected_at_schedule [1] [1] (fun _ => some 1) (1/2) 4 (fun k => k) (fun k => k)
    1 (by decide) (by decide)

/-- C10: a digit missing from `digit_weights` is treated inconsistently by
the two scheduler operations — `compute_go_ratio` defaults its weight to
0.0 (line 19) while `generate_trial_schedule` defaults it to 1.0 (lines 45
and 53).  With go = [0], nogo = [9] and an empty weight map the ratio
computation raises InvalidConfig while schedule generation succeeds, and
digit 0, which contributed 0 to the ratio totals, appears in the generated
trials. -/
theorem C10_default_weight_mismatch :
    compute_go_fraction [0] [9] (fun _ => none) =
        Except.error "Non-zero weights required for both Go and No-Go digits." ∧
    (∃ ts, generate_trial_schedule [0] [9] (fun _ => none) (1/2) 2 (fun k => k) (fun k => k) =
        Except.ok ts ∧ Trial.mk 0 true ∈ ts) ∧
    sumPos [0] (fun _ => none) = 0 :=
  ⟨by with_unfolding_all decide,
    ⟨[Trial.mk 0 true, Trial.mk 9 false], by with_unfolding_all decide, by decide⟩,
    by with_unfolding_all decide⟩

/-- One trial's log entry (the dicts built at src/gostop/gui/gui.py, lines
296-313; the parallel absolute/relative entries are merged here, with each
`times` pair split into onset and response fields).  `response_time = none`
models the float NaN sentinel, and `outcome = none` the pending state. -/
structure TrialEntry where
  trial_index : ℕ
  digit : ℕ
  is_go_trial : Bool
  onset_abs : ℚ
  onset_rel : ℚ
  response_abs : Option ℚ
  response_rel : Option ℚ
  response_key : Option String
  outcome : Option String
  response_time : Option ℚ
deriving DecidableEq

/-- The freshly created entry at stimulus onset (gui.py, lines 296-313):
no response, `outcome = None`, `response_time = NaN`. -/
def makeTrialEntry (idx digit : ℕ) (is_go : Bool) (onset_abs onset_rel : ℚ) : TrialEntry :=
  { trial_index := idx, digit := digit, is_go_trial := is_go,
    onset_abs := onset_abs, onset_rel := onset_rel,
    response_abs := none, response_rel := none,
    response_key := none, outcome := none, response_time := none }

/-- Embeds `ExperimentRunner.record_trial_outcome` (gui.py, lines 338-372):
classifies the outcome from (pressed, is_go), stores the response times and
key, and sets the reaction time to the relative difference when pressed
(falling back to the absolute difference, else NaN). -/
def record_trial_outcome (e : TrialEntry) (response_time_abs response_time_rel : Option ℚ)
    (pressed : Bool) : TrialEntry :=
  let outcome := if pressed then (if e.is_go_trial then "hit" else "commission_error")
    else (if e.is_go_trial then "miss" else "correct_withholding")
  let rt : Option ℚ :=
    if pressed then
      match response_time_rel with
      | some t => some (t - e.onset_rel)
      | none =>
        match response_time_abs with
        | some ta => some (ta - e.onset_abs)
        | none => none
    else none
  { e with
    response_abs := response_time_abs
    response_rel := response_time_rel
    response_key := if pressed then some "space" else none
    outcome := some outcome
    response_time := rt }

/-- The two ways a trial completes: the space-bar handler (gui.py, lines
581-595) records the captured timestamp pair with pressed=True; the
response-window expiry (`response_window_expired`, lines 328-336) records
None, None with pressed=False. -/
inductive TrialFinish where
  | press (t_abs t_rel : ℚ)
  | expire
deriving DecidableEq

/-- A trial entry after its (unique) completion event. -/
def completedEntry (idx digit : ℕ) (is_go : Bool) (oa orel : ℚ)
    (f : TrialFinish) : TrialEntry :=
  match f with
  | TrialFinish.press ta tr =>
    record_trial_outcome (makeTrialEntry idx digit is_go oa orel) (some ta) (some tr) true
  | TrialFinish.expire =>
    record_trial_outcome (makeTrialEntry idx digit is_go oa orel) none none false

/-- C4: the recorded outcome is determined solely by (is_go, pressed) per
the outcome table; the reaction time equals response_rel − onset_rel when a
response occurred and is the NaN sentinel otherwise; and every completed
trial has a non-pending outcome with exactly one of (response present,
outcome ∈ {hit, commission_error}) or (response absent, outcome ∈
{miss, correct_withholding}). -/
theorem C4_outcome_table (idx digit : ℕ) (is_go : Bool) (oa orel : ℚ) (f : TrialFinish) :
    ((completedEntry idx digit is_go oa orel f).outcome = some (match f with
      | TrialFinish.press _ _ => if is_go then "hit" else "commission_error"
      | TrialFinish.expire => if is_go then "miss" else "correct_withholding")) ∧
    (match f with
      | TrialFinish.press _ tr =>
        (completedEntry idx digit is_go oa orel f).response_time = some (tr - orel) ∧
        (completedEntry idx digit is_go oa orel f).response_rel = some tr
      | TrialFinish.expire =>
        (completedEntry idx digit is_go oa orel f).response_time = none ∧
        (completedEntry idx digit is_go oa orel f).response_rel = none) ∧
    (completedEntry idx digit is_go oa orel f).outcome ≠ none ∧
    (((completedEntry idx digit is_go oa orel f).response_rel.isSome = true ∧
        ((completedEntry idx digit is_go oa orel f).outcome = some "hit" ∨
          (completedEntry idx digit is_go oa orel f).outcome = some "commission_error") ∧
        ¬((completedEntry idx digit is_go oa orel f).response_rel = none ∧
          ((completedEntry idx digit is_go oa orel f).outcome = some "miss" ∨
            (completedEntry idx digit is_go oa orel f).outcome =
              some "correct_withholding"))) ∨
     ((completedEntry idx digit is_go oa orel f).response_rel = none ∧
        ((completedEntry idx digit is_go oa orel f).outcome = some "miss" ∨
          (completedEntry idx digit is_go oa orel f).outcome =
            some "correct_withholding") ∧
        ¬((completedEntry idx digit is_go oa orel f).response_rel.isSome = true ∧
          ((completedEntry idx digit is_go oa orel f).outcome = some "hit" ∨
            (completedEntry idx digit is_go oa orel f).outcome =
              some "commission_error")))) := by
  cases f <;> cases is_go <;>
    simp [completedEntry, makeTrialEntry, record_trial_outcome]

/-- The GoStop runner's log fields relevant to finalization (gui.py):
`recorded` collects every relative timestamp written into the log by the
state machine, `experiment_end` / `completed` / `abort_reason` /
`abort_time` mirror `log["timing_relative"]["experiment_end"]` and
`log["status"]`, and `end_writes` counts the writes to `experiment_end`. -/
structure RunnerLog where
  recorded : List ℚ
  experiment_end : Option ℚ
  end_writes : ℕ
  completed : Bool
  abort_reason : Option String
  abort_time : Option ℚ
deriving DecidableEq

/-- The runner's control flags (gui.py, lines 148-149) plus its log. -/
structure RunnerState where
  experiment_aborted : Bool
  showing_results : Bool
  log : RunnerLog
deriving DecidableEq

/-- State after `__init__` (gui.py, lines 148-191): flags false, status
pending, `experiment_start` recorded at relative time 0. -/
def initRunner : RunnerState :=
  { experiment_aborted := false, showing_results := false,
    log := { recorded := [0], experiment_end := none, end_writes := 0,
             completed := false, abort_reason := none, abort_time := none } }

/-- External/internal events driving the runner:
* `record t` — any timestamp recording by an abort-guarded state-machine
  method (`start_block`, `start_trials`, `show_trial_stimulus`,
  `finish_block`, all begin with `if self.experiment_aborted: return`);
* `recordResponse t` — the space-key response path (gui.py, lines 581-595),
  which is NOT abort-guarded;
* `finish t` — `finish_experiment` (lines 540-548);
* `abortReq r t` — an Escape key press routed through `keyPressEvent`
  (lines 571-580) to `abort_experiment` (lines 550-563);
* `showResults` — the deferred `show_results_screen` singleShot firing. -/
inductive REvent where
  | record (t : ℚ)
  | recordResponse (t : ℚ)
  | finish (t : ℚ)
  | abortReq (reason : String) (t : ℚ)
  | showResults
deriving DecidableEq

/-- The stopwatch timestamp carried by an event, if any. -/
def eventTime : REvent → Option ℚ
  | REvent.record t => some t
  | REvent.recordResponse t => some t
  | REvent.finish t => some t
  | REvent.abortReq _ t => some t
  | REvent.showResults => none

/-- One step of the runner: the guard structure follows the source.
`finish_experiment` and the guarded recorders return early when
`experiment_aborted` is set; `keyPressEvent` ignores Escape once
`showing_results` is set, and `abort_experiment` returns early when
`experiment_aborted` is already set.  Neither finalizer checks the other's
completion flag. -/
def runnerStep (s : RunnerState) : REvent → RunnerState
  | REvent.record t =>
    if s.experiment_aborted then s
    else { s with log := { s.log with recorded := s.log.recorded ++ [t] } }
  | REvent.recordResponse t =>
    { s with log := { s.log with recorded := s.log.recorded ++ [t] } }
  | REvent.finish t =>
    if s.experiment_aborted then s
    else
      { s with log :=
        { s.log with
          experiment_end := some t
          end_writes := s.log.end_writes + 1
          completed := true } }
  | REvent.abortReq r t =>
    if s.showing_results then s
    else if s.experiment_aborted then s
    else
      { s with
        experiment_aborted := true
        log :=
        { s.log with
          completed := false
          abort_reason := some r
          abort_time := some t
          experiment_end := some t
          end_writes := s.log.end_writes + 1 } }
  | REvent.showResults => { s with showing_results := true }

/-- A run of the state machine over a sequence of events. -/
def runEvents (s : RunnerState) (es : List REvent) : RunnerState :=
  es.foldl runnerStep s

def isFinishEvent : REvent → Bool
  | REvent.finish _ => true
  | _ => false

def isAbortEvent : REvent → Bool
  | REvent.abortReq _ _ => true
  | _ => false

lemma runEvents_append (s : RunnerState) (p q : List REvent) :
    runEvents s (p ++ q) = runEvents (runEvents s p) q :=
  List.foldl_append runnerStep s p q

lemma runEvents_cons (s : RunnerState) (e : REvent) (es : List REvent) :
    runEvents s (e :: es) = runEvents (runnerStep s e) es := rfl

lemma runnerStep_aborted_frozen (s : RunnerState) (e : REvent)
    (h : s.experiment_aborted = true) :
    (runnerStep s e).experiment_aborted = true ∧
    (runnerStep s e).log.completed = s.log.completed ∧
    (runnerStep s e).log.abort_reason = s.log.abort_reason ∧
    (runnerStep s e).log.experiment_end = s.log.experiment_end ∧
    (runnerStep s e).log.end_writes = s.log.end_writes := by
  cases e <;> simp [runnerStep, h]

lemma runEvents_aborted_frozen : ∀ (es : List REvent) (s : RunnerState),
    s.experiment_aborted = true →
    (runEvents s es).experiment_aborted = true ∧
    (runEvents s es).log.completed = s.log.completed ∧
    (runEvents s es).log.abort_reason = s.log.abort_reason ∧
    (runEvents s es).log.experiment_end = s.log.experiment_end ∧
    (runEvents s es).log.end_writes = s.log.end_writes
  | [], _, h => ⟨h, rfl, rfl, rfl, rfl⟩
  | e :: es, s, h => by
    have hstep := runnerStep_aborted_frozen s e h
    have hrest := runEvents_aborted_frozen es (runnerStep s e) hstep.1
    simp only [runEvents, List.foldl_cons] at hrest ⊢
    exact ⟨hrest.1, hrest.2.1.trans hstep.2.1, hrest.2.2.1.trans hstep.2.2.1,
      hrest.2.2.2.1.trans hstep.2.2.2.1, hrest.2.2.2.2.trans hstep.2.2.2.2⟩

lemma runnerStep_recorded (s : RunnerState) (e : REvent) (x : ℚ)
    (h : x ∈ (runnerStep s e).log.recorded) :
    x ∈ s.log.recorded ∨ eventTime e = some x := by
  cases e with
  | record t =>
    by_cases hb : s.experiment_aborted = true
    · simp only [runnerStep, if_pos hb] at h
      exact Or.inl h
    · simp only [runnerStep, if_neg hb, List.mem_append, List.mem_singleton] at h
      rcases h with h | h
      · exact Or.inl h
      · exact Or.inr (by rw [h, eventTime])
  | recordResponse t =>
    simp only [runnerStep, List.mem_append, List.mem_singleton] at h
    rcases h with h | h
    · exact Or.inl h
    · exact Or.inr (by rw [h, eventTime])
  | finish t =>
    by_cases hb : s.experiment_aborted = true
    · simp only [runnerStep, if_pos hb] at h
      exact Or.inl h
    · simp only [runnerStep, if_neg hb] at h
      exact Or.inl h
  | abortReq r t =>
    simp only [runnerStep] at h
    split_ifs at h <;> exact Or.inl h
  | showResults =>
    simp only [runnerStep] at h
    exact Or.inl h

lemma recorded_mem_runEvents : ∀ (es : List REvent) (s : RunnerState) (x : ℚ),
    x ∈ (runEvents s es).log.recorded →
    x ∈ s.log.recorded ∨ ∃ e ∈ es, eventTime e = some x
  | [], _, _, h => Or.inl h
  | e :: es, s, x, h => by
    simp only [runEvents, List.foldl_cons] at h
    rcases recorded_mem_runEvents es (runnerStep s e) x h with h1 | ⟨e1, he1, ht1⟩
    · rcases runnerStep_recorded s e x h1 with h2 | h2
      · exact Or.inl h2
      · exact Or.inr ⟨e, List.mem_cons_self e es, h2⟩
    · exact Or.inr ⟨e1, List.mem_cons_of_mem e he1, ht1⟩

lemma runnerStep_abort_invariant (s : RunnerState) (e : REvent)
    (hf : isFinishEvent e = false)
    (hinv : s.log.end_writes = if s.experiment_aborted then 1 else 0) :
    (runnerStep s e).log.end_writes =
      if (runnerStep s e).experiment_aborted then 1 else 0 := by
  cases e with
  | record t =>
    simp only [runnerStep]
    split_ifs with hb <;> simpa [hb] using hinv
  | recordResponse t => simpa [runnerStep] using hinv
  | finish t => simp [isFinishEvent] at hf
  | abortReq r t =>
    by_cases h1 : s.showing_results = true
    · simpa [runnerStep, h1] using hinv
    · by_cases h2 : s.experiment_aborted = true
      · simpa [runnerStep, h1, h2] using hinv
      · simp only [runnerStep, h1, h2] at hinv ⊢
        simp at hinv ⊢
        omega
  | showResults => simpa [runnerStep] using hinv

lemma runEvents_no_finish_writes : ∀ (es : List REvent) (s : RunnerState),
    (∀ e ∈ es, isFinishEvent e = false) →
    s.log.end_writes = (if s.experiment_aborted then 1 else 0) →
    (runEvents s es).log.end_writes =
      if (runEvents s es).experiment_aborted then 1 else 0
  | [], _, _, hinv => hinv
  | e :: es, s, hf, hinv => by
    simp only [runEvents, List.foldl_cons]
    exact runEvents_no_finish_writes es (runnerStep s e)
      (fun e1 he1 => hf e1 (List.mem_cons_of_mem e he1))
      (runnerStep_abort_invariant s e (hf e (List.mem_cons_self e es)) hinv)

lemma runnerStep_no_abort (s : RunnerState) (e : REvent)
    (ha : isAbortEvent e = false) (hb : s.experiment_aborted = false) :
    (runnerStep s e).experiment_aborted = false ∧
    (runnerStep s e).log.end_writes =
      s.log.end_writes + (if isFinishEvent e then 1 else 0) := by
  cases e <;> simp_all [runnerStep, isFinishEvent, isAbortEvent]

lemma runEvents_no_abort_writes : ∀ (es : List REvent) (s : RunnerState),
    (∀ e ∈ es, isAbortEvent e = false) →
    s.experiment_aborted = false →
    (runEvents s es).log.end_writes = s.log.end_writes + es.countP isFinishEvent
  | [], _, _, _ => by simp [runEvents]
  | e :: es, s, ha, hb => by
    have hstep := runnerStep_no_abort s e (ha e (List.mem_cons_self e es)) hb
    have hrest := runEvents_no_abort_writes es (runnerStep s e)
      (fun e1 he1 => ha e1 (List.mem_cons_of_mem e he1)) hstep.1
    simp only [runEvents, List.foldl_cons] at hrest ⊢
    rw [hrest, hstep.2, List.countP_cons]
    by_cases hfe : isFinishEvent e = true
    · simp only [hfe, if_true]
      omega
    · simp only [hfe, if_false]
      omega

/-- C5 (amended): an abort processed at any point after the run starts (the
abort request arriving in a state that is neither aborted nor showing
results) yields a final log with `completed = false`, a non-null abort
reason, and an `experiment_end` timestamp ≥ every timestamp previously
recorded in the log; moreover `experiment_end` is written exactly once in
any run in which only one of the two finalizers runs — once by the abort
path when no finish occurs, and once per `finish_experiment` call when no
abort request occurs.  (As the counterexample shows, an abort request
processed after natural completion writes `experiment_end` a second time,
because `abort_experiment` checks only the `experiment_aborted` flag.) -/
theorem C5_abort_finalization
    (trace p q : List REvent) (r : String) (t : ℚ)
    (htrace : trace = p ++ REvent.abortReq r t :: q)
    (hsorted : (trace.filterMap eventTime).Sorted (· ≤ ·))
    (hpos : ∀ x ∈ trace.filterMap eventTime, 0 ≤ x)
    (hnab : (runEvents initRunner p).experiment_aborted = false)
    (hnsh : (runEvents initRunner p).showing_results = false) :
    ((runEvents initRunner trace).experiment_aborted = true ∧
     (runEvents initRunner trace).log.completed = false ∧
     (runEvents initRunner trace).log.abort_reason = some r ∧
     (runEvents initRunner trace).log.experiment_end = some t ∧
     ∀ x ∈ (runEvents initRunner p).log.recorded, x ≤ t) ∧
    (∀ es : List REvent, (∀ e ∈ es, isFinishEvent e = false) →
      (runEvents initRunner es).log.end_writes =
        if (runEvents initRunner es).experiment_aborted then 1 else 0) ∧
    (∀ es : List REvent, (∀ e ∈ es, isAbortEvent e = false) →
      (runEvents initRunner es).log.end_writes = es.countP isFinishEvent) := by
  refine ⟨?_, ?_, ?_⟩
  · subst htrace
    have hfm : (p ++ REvent.abortReq r t :: q).filterMap eventTime =
        p.filterMap eventTime ++ t :: q.filterMap eventTime := by
      rw [List.filterMap_append]
      rfl
    have htmem : t ∈ (p ++ REvent.abortReq r t :: q).filterMap eventTime := by
      rw [hfm]
      exact List.mem_append_right _ (List.mem_cons_self t _)
    have hcross : ∀ x ∈ p.filterMap eventTime, x ≤ t := by
      rw [hfm] at hsorted
      have := (List.pairwise_append.mp hsorted).2.2
      exact fun x hx => this x hx t (List.mem_cons_self t _)
    have hrec : ∀ x ∈ (runEvents initRunner p).log.recorded, x ≤ t := by
      intro x hx
      rcases recorded_mem_runEvents p initRunner x hx with h0 | ⟨e, he, ht⟩
      · have hx0 : x = 0 := by simpa [initRunner] using h0
        rw [hx0]
        exact hpos t htmem
      · exact hcross x (List.mem_filterMap.mpr ⟨e, he, ht⟩)
    rw [runEvents_append]
    have hstep : runnerStep (runEvents initRunner p) (REvent.abortReq r t) =
        { (runEvents initRunner p) with
          experiment_aborted := true
          log :=
          { (runEvents initRunner p).log with
            completed := false
            abort_reason := some r
            abort_time := some t
            experiment_end := some t
            end_writes := (runEvents initRunner p).log.end_writes + 1 } } := by
      simp [runnerStep, hnab, hnsh]
    have hfrozen := runEvents_aborted_frozen q
      (runnerStep (runEvents initRunner p) (REvent.abortReq r t))
      (by rw [hstep])
    rw [runEvents_cons]
    refine ⟨hfrozen.1, ?_, ?_, ?_, hrec⟩
    · rw [hfrozen.2.1, hstep]
    · rw [hfrozen.2.2.1, hstep]
    · rw [hfrozen.2.2.2.1, hstep]
  · intro es hf
    exact runEvents_no_finish_writes es initRunner hf (by simp [initRunner])
  · intro es ha
    have := runEvents_no_abort_writes es initRunner ha (by simp [initRunner])
    simpa [initRunner] using this

/-- C5 counterexample: `experiment_end` can be written by both finalizers in
one run.  After `finish_experiment` at time 1 the runner is neither aborted
nor yet showing results (the results screen is deferred via a 0 ms
singleShot), so an Escape abort at time 2 passes both guards of
`abort_experiment` and overwrites `experiment_end`, for two writes in
total. -/
theorem C5_end_written_twice :
    (runEvents initRunner [REvent.finish 1]).log.end_writes = 1 ∧
    (runEvents initRunner [REvent.finish 1]).log.experiment_end = some 1 ∧
    (runEvents initRunner [REvent.finish 1]).log.completed = true ∧
    (runEvents initRunner [REvent.finish 1]).showing_results = false ∧
    (runEvents initRunner
        [REvent.finish 1, REvent.abortReq "user_pressed_esc" 2]).log.end_writes = 2 ∧
    (runEvents initRunner
        [REvent.finish 1, REvent.abortReq "user_pressed_esc" 2]).log.experiment_end =
      some 2 := by
  with_unfolding_all decide

/-- Witness for C5 on a concrete trace: one recorded timestamp, then an
abort. -/
theorem C5_abort_finalization_witness :
    (runEvents initRunner
        [REvent.record 1, REvent.abortReq "user_pressed_esc" 2]).experiment_aborted = true ∧
    (runEvents initRunner
        [REvent.record 1, REvent.abortReq "user_pressed_esc" 2]).log.completed = false ∧
    (runEvents initRunner
        [REvent.record 1, REvent.abortReq "user_pressed_esc" 2]).log.abort_reason =
      some "user_pressed_esc" ∧
    (runEvents initRunner
        [REvent.record 1, REvent.abortReq "user_pressed_esc" 2]).log.experiment_end =
      some 2 ∧
    ∀ x ∈ (runEvents initRunner [REvent.record 1]).log.recorded, x ≤ 2 :=
  (C5_abort_finalization [REvent.record 1, REvent.abortReq "user_pressed_esc" 2]
    [REvent.record 1] [] "user_pressed_esc" 2 rfl
    (by with_unfolding_all decide) (by with_unfolding_all decide)
    (by with_unfolding_all decide) (by with_unfolding_all decide)).1

/-- Rational ceiling, executable; agrees with `Int.ceil`. -/
def ratCeil (q : ℚ) : ℤ := -((-q).floor)

lemma ratCeil_eq_intCeil (q : ℚ) : ratCeil q = ⌈q⌉ := by
  rw [ratCeil, ratFloor_eq_intFloor, Int.floor_neg, neg_neg]

/-- Embeds the timeout handler of `start_countdown_timer`
(src/core/timing.py, lines 56-65).  `els` is the stream of elapsed values
`time.perf_counter() - start_perf` observed at successive QTimer timeout
events.  Returns the remaining-ms values passed to `on_tick` by the
handler, paired with the number of `on_finished` calls: when the recomputed
remaining time is ≤ 0 the timer stops and `on_finished` fires, otherwise
`on_tick` fires and the timer keeps running. -/
def timer_timeouts (d : ℚ) : List ℚ → List ℤ × ℕ
  | [] => ([], 0)
  | e :: es =>
    let rem := max 0 (ratCeil ((d - e) * 1000))
    if rem ≤ 0 then ([], 1)
    else
      let r := timer_timeouts d es
      (rem :: r.1, r.2)

/-- Embeds `start_countdown_timer` (src/core/timing.py, lines 39-71):
clamps the duration at 0 (line 48), issues the initial tick with
`max(0, ceil(duration*1000))` (lines 50-51), then processes timeout
events.  Returns all `on_tick` values and the `on_finished` call count. -/
def start_countdown_timer (duration_s : ℚ) (els : List ℚ) : List ℤ × ℕ :=
  let d := max 0 duration_s
  let r0 := max 0 (ratCeil (d * 1000))
  let r := timer_timeouts d els
  (r0 :: r.1, r.2)

/-- How the blocking countdown loop exited: deadline reached, abort break,
or the explicit fuel bound ran out (which a real run never hits). -/
inductive CdExit where
  | natural
  | abortBreak
  | fuelOut
deriving DecidableEq

/-- Result of the blocking countdown loop: the `on_tick` values, the exit
kind, and the index of the next unconsumed `check_abort` call. -/
structure CdRun where
  ticks : List ℤ
  exit : CdExit
  nextIdx : ℕ
deriving DecidableEq

/-- The remaining milliseconds recomputed by the blocking loop at
iteration `i` (src/core/timing.py, line 96): iteration `i` samples
`time.perf_counter()` as `clock (i + 1)`, index 0 having been consumed
computing `end_time`. -/
def remAt (endT : ℚ) (clock : ℕ → ℚ) (i : ℕ) : ℤ :=
  max 0 (ratCeil ((endT - clock (i + 1)) * 1000))

/-- Embeds the while-loop of `run_blocking_countdown` (src/core/timing.py,
lines 92-102).  Iteration `i` checks `check_abort()` as `ab i`, recomputes
the remaining milliseconds, fires `on_tick` only when the value differs
from `last` (line 97), breaks naturally once the deadline passed
(line 100), and otherwise sleeps and loops.  `fuelOut` marks exhaustion of
the explicit fuel bound, which a real run never hits. -/
def cdLoop (endT : ℚ) (clock : ℕ → ℚ) (ab : ℕ → Bool) : ℕ → ℕ → Option ℤ → CdRun
  | 0, i, _ => ⟨[], CdExit.fuelOut, i⟩
  | fuel + 1, i, last =>
    if ab i then ⟨[], CdExit.abortBreak, i + 1⟩
    else if some (remAt endT clock i) ≠ last then
      if endT ≤ clock (i + 1) then ⟨[remAt endT clock i], CdExit.natural, i + 1⟩
      else
        CdRun.mk
          (remAt endT clock i ::
            (cdLoop endT clock ab fuel (i + 1) (some (remAt endT clock i))).ticks)
          (cdLoop endT clock ab fuel (i + 1) (some (remAt endT clock i))).exit
          (cdLoop endT clock ab fuel (i + 1) (some (remAt endT clock i))).nextIdx
    else if endT ≤ clock (i + 1) then ⟨[], CdExit.natural, i + 1⟩
    else cdLoop endT clock ab fuel (i + 1) last

/-- Embeds `run_blocking_countdown` (src/core/timing.py, lines 82-104).
`end_time` is `clock 0 + max(0, duration)` (line 90).  The Bool is whether
`on_finished` runs: after the loop the code re-checks `check_abort()`
(line 103), consuming the next `ab` index; on fuel exhaustion the loop
never returned, so `on_finished` has not run. -/
def run_blocking_countdown (duration_s : ℚ) (clock : ℕ → ℚ) (ab : ℕ → Bool)
    (fuel : ℕ) : CdRun × Bool :=
  (cdLoop (clock 0 + max 0 duration_s) clock ab fuel 0 none,
    match (cdLoop (clock 0 + max 0 duration_s) clock ab fuel 0 none).exit with
    | CdExit.fuelOut => false
    | _ => !ab (cdLoop (clock 0 + max 0 duration_s) clock ab fuel 0 none).nextIdx)

/-- C6: for both countdown variants, a duration ≤ 0 (negative durations
clamped to 0) with no abort requested yields exactly one `on_tick` call
with `remaining_ms = 0`, followed by exactly one `on_finished` call. -/
theorem C6_zero_duration_single_tick
    (D e : ℚ) (es : List ℚ) (clock : ℕ → ℚ) (ab : ℕ → Bool) (fuel : ℕ)
    (hD : D ≤ 0) (he : 0 ≤ e)
    (hab : ∀ i, ab i = false)
    (hmono : ∀ i j, i ≤ j → clock i ≤ clock j)
    (hfuel : 1 ≤ fuel) :
    start_countdown_timer D (e :: es) = ([0], 1) ∧
    run_blocking_countdown D clock ab fuel = (⟨[0], CdExit.natural, 1⟩, true) := by
  have hmax : max 0 D = 0 := max_eq_left hD
  constructor
  · have h1 : -(e * 1000) ≤ (0 : ℚ) := by
      have := mul_nonneg he (by norm_num : (0 : ℚ) ≤ 1000)
      linarith
    have hrem : ratCeil (-(e * 1000)) ≤ 0 := by
      rw [ratCeil_eq_intCeil]
      exact Int.ceil_le.mpr (by exact_mod_cast h1)
    have h0 : ratCeil (0 : ℚ) ≤ 0 := by
      rw [ratCeil_eq_intCeil]
      norm_num
    simp [start_countdown_timer, timer_timeouts, hmax, hrem, h0]
  · obtain ⟨f, rfl⟩ : ∃ f, fuel = f + 1 := ⟨fuel - 1, by omega⟩
    have hcond : clock 0 + max 0 D ≤ clock 1 := by
      rw [hmax, add_zero]
      exact hmono 0 1 (by omega)
    have h1 : (clock 0 + max 0 D - clock 1) * 1000 ≤ 0 :=
      mul_nonpos_of_nonpos_of_nonneg (by linarith) (by norm_num)
    have h2 : ⌈(clock 0 + max 0 D - clock 1) * 1000⌉ ≤ (0 : ℤ) :=
      Int.ceil_le.mpr (by exact_mod_cast h1)
    have hrem : remAt (clock 0 + max 0 D) clock 0 = 0 := by
      rw [remAt, ratCeil_eq_intCeil]
      exact max_eq_left h2
    simp [run_blocking_countdown, cdLoop, hab, hrem, hcond]

lemma cdLoop_not_fuelOut (endT : ℚ) (clock : ℕ → ℚ) (ab : ℕ → Bool) :
    ∀ (fuel i : ℕ) (last : Option ℤ),
      (∃ j, i ≤ j ∧ j < i + fuel ∧ (ab j = true ∨ endT ≤ clock (j + 1))) →
      (cdLoop endT clock ab fuel i last).exit ≠ CdExit.fuelOut
  | 0, i, last, h => by
    obtain ⟨j, hj1, hj2, _⟩ := h
    omega
  | fuel + 1, i, last, h => by
    rw [cdLoop]
    by_cases ha : ab i = true
    · rw [if_pos ha]
      simp
    · rw [if_neg ha]
      have hw : ¬ (endT ≤ clock (i + 1)) →
          ∃ j, i + 1 ≤ j ∧ j < (i + 1) + fuel ∧ (ab j = true ∨ endT ≤ clock (j + 1)) := by
        intro hle
        obtain ⟨j, hj1, hj2, hj3⟩ := h
        refine ⟨j, ?_, by omega, hj3⟩
        rcases Nat.eq_or_lt_of_le hj1 with rfl | hlt
        · rcases hj3 with hj3 | hj3
          · exact absurd hj3 ha
          · exact absurd hj3 hle
        · omega
      by_cases hne : some (remAt endT clock i) ≠ last
      · rw [if_pos hne]
        by_cases hle : endT ≤ clock (i + 1)
        · rw [if_pos hle]
          simp
        · rw [if_neg hle]
          exact cdLoop_not_fuelOut endT clock ab fuel (i + 1)
            (some (remAt endT clock i)) (hw hle)
      · rw [if_neg hne]
        by_cases hle : endT ≤ clock (i + 1)
        · rw [if_pos hle]
          simp
        · rw [if_neg hle]
          exact cdLoop_not_fuelOut endT clock ab fuel (i + 1) last (hw hle)

lemma cdLoop_abort_ab (endT : ℚ) (clock : ℕ → ℚ) (ab : ℕ → Bool)
    (habmono : ∀ i j, i ≤ j → ab i = true → ab j = true) :
    ∀ (fuel i : ℕ) (last : Option ℤ),
      (cdLoop endT clock ab fuel i last).exit = CdExit.abortBreak →
      ab (cdLoop endT clock ab fuel i last).nextIdx = true
  | 0, i, last, h => by
    rw [cdLoop] at h
    simp at h
  | fuel + 1, i, last, h => by
    rw [cdLoop] at h ⊢
    by_cases ha : ab i = true
    · rw [if_pos ha]
      exact habmono i (i + 1) (by omega) ha
    · rw [if_neg ha] at h ⊢
      by_cases hne : some (remAt endT clock i) ≠ last
      · rw [if_pos hne] at h ⊢
        by_cases hle : endT ≤ clock (i + 1)
        · rw [if_pos hle] at h
          simp at h
        · rw [if_neg hle] at h ⊢
          exact cdLoop_abort_ab endT clock ab habmono fuel (i + 1)
            (some (remAt endT clock i)) h
      · rw [if_neg hne] at h ⊢
        by_cases hle : endT ≤ clock (i + 1)
        · rw [if_pos hle] at h
          simp at h
        · rw [if_neg hle] at h ⊢
          exact cdLoop_abort_ab endT clock ab habmono fuel (i + 1) last h

lemma cdLoop_natural_deadline (endT : ℚ) (clock : ℕ → ℚ) (ab : ℕ → Bool) :
    ∀ (fuel i : ℕ) (last : Option ℤ),
      (cdLoop endT clock ab fuel i last).exit = CdExit.natural →
      endT ≤ clock (cdLoop endT clock ab fuel i last).nextIdx
  | 0, i, last, h => by
    rw [cdLoop] at h
    simp at h
  | fuel + 1, i, last, h => by
    rw [cdLoop] at h ⊢
    by_cases ha : ab i = true
    · rw [if_pos ha] at h
      simp at h
    · rw [if_neg ha] at h ⊢
      by_cases hne : some (remAt endT clock i) ≠ last
      · rw [if_pos hne] at h ⊢
        by_cases hle : endT ≤ clock (i + 1)
        · rw [if_pos hle]
          exact hle
        · rw [if_neg hle] at h ⊢
          exact cdLoop_natural_deadline endT clock ab fuel (i + 1)
            (some (remAt endT clock i)) h
      · rw [if_neg hne] at h ⊢
        by_cases hle : endT ≤ clock (i + 1)
        · rw [if_pos hle]
          exact hle
        · rw [if_neg hle] at h ⊢
          exact cdLoop_natural_deadline endT clock ab fuel (i + 1) last h

/-- C7: with a monotone abort flag, `run_blocking_countdown` stops as soon
as an iteration sees `check_abort()` true or the remaining time ≤ 0 (no
fuel exhaustion once such an iteration is in range); when the loop exits by
abort, `on_finished` is never invoked; and when it exits naturally the
deadline had passed (remaining_ms was 0). -/
theorem C7_blocking_stop_and_finish_guard
    (D : ℚ) (clock : ℕ → ℚ) (ab : ℕ → Bool) (fuel : ℕ)
    (habmono : ∀ i j, i ≤ j → ab i = true → ab j = true)
    (hterm : ∃ i, i < fuel ∧ (ab i = true ∨ clock 0 + max 0 D ≤ clock (i + 1))) :
    (run_blocking_countdown D clock ab fuel).1.exit ≠ CdExit.fuelOut ∧
    ((run_blocking_countdown D clock ab fuel).1.exit = CdExit.abortBreak →
      (run_blocking_countdown D clock ab fuel).2 = false) ∧
    ((run_blocking_countdown D clock ab fuel).1.exit = CdExit.natural →
      clock 0 + max 0 D ≤ clock (run_blocking_countdown D clock ab fuel).1.nextIdx) := by
  refine ⟨?_, ?_, ?_⟩
  · exact cdLoop_not_fuelOut _ clock ab fuel 0 none
      (by obtain ⟨i, h1, h2⟩ := hterm; exact ⟨i, by omega, by omega, h2⟩)
  · intro hx
    have hx' : (cdLoop (clock 0 + max 0 D) clock ab fuel 0 none).exit =
        CdExit.abortBreak := hx
    have hab2 := cdLoop_abort_ab _ clock ab habmono fuel 0 none hx'
    show (match (cdLoop (clock 0 + max 0 D) clock ab fuel 0 none).exit with
      | CdExit.fuelOut => false
      | _ => !ab (cdLoop (clock 0 + max 0 D) clock ab fuel 0 none).nextIdx) = false
    rw [hx']
    simp [hab2]
  · intro hx
    exact cdLoop_natural_deadline _ clock ab fuel 0 none hx

/-- Witness for C7: a unit countdown against the integer clock aborts at
iteration 1 and never calls `on_finished`. -/
theorem C7_blocking_witness :
    (run_blocking_countdown 1 (fun i => (i : ℚ)) (fun i => decide (1 ≤ i)) 3).1.exit ≠
      CdExit.fuelOut ∧
    ((run_blocking_countdown 1 (fun i => (i : ℚ)) (fun i => decide (1 ≤ i)) 3).1.exit =
        CdExit.abortBreak →
      (run_blocking_countdown 1 (fun i => (i : ℚ)) (fun i => decide (1 ≤ i)) 3).2 = false) ∧
    ((run_blocking_countdown 1 (fun i => (i : ℚ)) (fun i => decide (1 ≤ i)) 3).1.exit =
        CdExit.natural →
      ((0 : ℕ) : ℚ) + max 0 1 ≤
        ((run_blocking_countdown 1 (fun i => (i : ℚ)) (fun i => decide (1 ≤ i)) 3).1.nextIdx :
          ℚ)) :=
  C7_blocking_stop_and_finish_guard 1 (fun i => (i : ℚ)) (fun i => decide (1 ≤ i)) 3
    (fun i j hij hi => by
      simp only [decide_eq_true_eq] at hi ⊢
      omega)
    ⟨1, by omega, Or.inl (by decide)⟩

lemma remAt_antitone (endT : ℚ) (clock : ℕ → ℚ)
    (hmono : ∀ i j, i ≤ j → clock i ≤ clock j) {i j : ℕ} (h : i ≤ j) :
    remAt endT clock j ≤ remAt endT clock i := by
  rw [remAt, remAt, ratCeil_eq_intCeil, ratCeil_eq_intCeil]
  have hc : clock (i + 1) ≤ clock (j + 1) := hmono _ _ (by omega)
  have hm : (endT - clock (j + 1)) * 1000 ≤ (endT - clock (i + 1)) * 1000 :=
    mul_le_mul_of_nonneg_right (by linarith) (by norm_num)
  exact max_le_max le_rfl (Int.ceil_mono hm)

lemma remAt_pos_of_not_le (endT : ℚ) (clock : ℕ → ℚ) (i : ℕ)
    (h : ¬ endT ≤ clock (i + 1)) : 0 < remAt endT clock i := by
  rw [remAt, ratCeil_eq_intCeil]
  have hp : (0 : ℚ) < (endT - clock (i + 1)) * 1000 :=
    mul_pos (by linarith) (by norm_num)
  exact lt_max_iff.mpr (Or.inr (Int.ceil_pos.mpr hp))

lemma remAt_eq_zero_of_le (endT : ℚ) (clock : ℕ → ℚ) (i : ℕ)
    (h : endT ≤ clock (i + 1)) : remAt endT clock i = 0 := by
  rw [remAt, ratCeil_eq_intCeil]
  have hp : (endT - clock (i + 1)) * 1000 ≤ 0 :=
    mul_nonpos_of_nonpos_of_nonneg (by linarith) (by norm_num)
  exact max_eq_left (Int.ceil_le.mpr (by exact_mod_cast hp))

lemma cdLoop_natural_ticks (endT : ℚ) (clock : ℕ → ℚ) (ab : ℕ → Bool)
    (hab : ∀ i, ab i = false)
    (hmono : ∀ i j, i ≤ j → clock i ≤ clock j) :
    ∀ (fuel i : ℕ) (last : Option ℤ),
      (last = none ∨
        ∃ k, k + 1 ≤ i ∧ last = some (remAt endT clock k) ∧ 0 < remAt endT clock k) →
      (cdLoop endT clock ab fuel i last).exit = CdExit.natural →
      (cdLoop endT clock ab fuel i last).ticks ≠ [] ∧
      (cdLoop endT clock ab fuel i last).ticks.getLast? = some 0 ∧
      List.Chain' (fun a b => b < a)
        (last.toList ++ (cdLoop endT clock ab fuel i last).ticks)
  | 0, i, last, _, hexit => by
    rw [cdLoop] at hexit
    simp at hexit
  | fuel + 1, i, last, hlast, hexit => by
    have ha : ¬ (ab i = true) := by simp [hab i]
    rw [cdLoop] at hexit ⊢
    rw [if_neg ha] at hexit ⊢
    by_cases hle : endT ≤ clock (i + 1)
    · have hrem0 : remAt endT clock i = 0 := remAt_eq_zero_of_le endT clock i hle
      have hne : some (remAt endT clock i) ≠ last := by
        rcases hlast with rfl | ⟨k, _, rfl, hkpos⟩
        · simp
        · rw [hrem0]
          intro hc
          rw [Option.some_inj] at hc
          omega
      rw [if_pos hne, if_pos hle]
      refine ⟨by simp, by simp [hrem0], ?_⟩
      rcases hlast with rfl | ⟨k, _, rfl, hkpos⟩
      · simp only [Option.toList_none, List.nil_append]
        exact List.chain'_singleton _
      · simp only [Option.toList_some, List.cons_append, List.nil_append, hrem0]
        exact List.chain'_cons.mpr ⟨by omega, List.chain'_singleton _⟩
    · have hrpos : 0 < remAt endT clock i := remAt_pos_of_not_le endT clock i hle
      by_cases hne : some (remAt endT clock i) ≠ last
      · rw [if_pos hne, if_neg hle] at hexit ⊢
        have hinv : (some (remAt endT clock i) : Option ℤ) = none ∨
            ∃ k, k + 1 ≤ i + 1 ∧
              (some (remAt endT clock i) : Option ℤ) = some (remAt endT clock k) ∧
              0 < remAt endT clock k :=
          Or.inr ⟨i, by omega, rfl, hrpos⟩
        have hrec := cdLoop_natural_ticks endT clock ab hab hmono fuel (i + 1)
          (some (remAt endT clock i)) hinv hexit
        obtain ⟨y, ys, hys⟩ := List.exists_cons_of_ne_nil hrec.1
        refine ⟨by simp, ?_, ?_⟩
        · show (remAt endT clock i ::
            (cdLoop endT clock ab fuel (i + 1) (some (remAt endT clock i))).ticks).getLast? =
              some 0
          rw [hys, List.getLast?_cons_cons, ← hys]
          exact hrec.2.1
        · rcases hlast with rfl | ⟨k, hk, rfl, hkpos⟩
          · simpa using hrec.2.2
          · have hlt : remAt endT clock i < remAt endT clock k := by
              have hle2 : remAt endT clock i ≤ remAt endT clock k :=
                remAt_antitone endT clock hmono (by omega)
              have hneq : remAt endT clock i ≠ remAt endT clock k := by
                intro hc
                exact hne (by rw [hc])
              omega
            simp only [Option.toList_some, List.cons_append, List.nil_append]
            refine List.chain'_cons.mpr ⟨hlt, ?_⟩
            simpa using hrec.2.2
      · push_neg at hne
        rw [if_neg (not_not_intro hne), if_neg hle] at hexit ⊢
        have hinv : last = none ∨
            ∃ k, k + 1 ≤ i + 1 ∧ last = some (remAt endT clock k) ∧
              0 < remAt endT clock k :=
          Or.inr ⟨i, by omega, hne.symm, hrpos⟩
        exact cdLoop_natural_ticks endT clock ab hab hmono fuel (i + 1) last hinv hexit

/-- C8: for a run of `run_blocking_countdown` with positive duration and no
abort that completes naturally, the sequence of `remaining_ms` values
passed to `on_tick` is strictly decreasing between consecutive ticks
(monotonically non-increasing, with redundant callbacks for an unchanged
value suppressed), and the final tick before `on_finished` carries
`remaining_ms = 0`. -/
theorem C8_blocking_ticks_strictly_decreasing
    (D : ℚ) (clock : ℕ → ℚ) (ab : ℕ → Bool) (fuel : ℕ)
    (_hD : 0 < D)
    (hab : ∀ i, ab i = false)
    (hmono : ∀ i j, i ≤ j → clock i ≤ clock j)
    (hnat : (run_blocking_countdown D clock ab fuel).1.exit = CdExit.natural) :
    (run_blocking_countdown D clock ab fuel).1.ticks ≠ [] ∧
    List.Chain' (fun a b => b < a) (run_blocking_countdown D clock ab fuel).1.ticks ∧
    (run_blocking_countdown D clock ab fuel).1.ticks.getLast? = some 0 := by
  have h := cdLoop_natural_ticks (clock 0 + max 0 D) clock ab hab hmono fuel 0 none
    (Or.inl rfl) hnat
  exact ⟨h.1, by simpa using h.2.2, h.2.1⟩

/-- Witness for C8 at a concrete run: duration 1 against the integer
clock. -/
theorem C8_blocking_witness :
    (run_blocking_countdown 1 (fun i => (i : ℚ)) (fun _ => false) 2).1.ticks ≠ [] ∧
    List.Chain' (fun a b => b < a)
      (run_blocking_countdown 1 (fun i => (i : ℚ)) (fun _ => false) 2).1.ticks ∧
    (run_blocking_countdown 1 (fun i => (i : ℚ)) (fun _ => false) 2).1.ticks.getLast? =
      some 0 :=
  C8_blocking_ticks_strictly_decreasing 1 (fun i => (i : ℚ)) (fun _ => false) 2
    (by norm_num) (fun _ => rfl) (fun i j h => Nat.cast_le.mpr h)
    (by with_unfolding_all decide)

/-- Witness for C6 at a concrete zero-duration run. -/
theorem C6_zero_duration_witness :
    start_countdown_timer (-1) [0, 1] = ([0], 1) ∧
    run_blocking_countdown (-1) (fun i => (i : ℚ)) (fun _ => false) 1 =
      (⟨[0], CdExit.natural, 1⟩, true) :=
  C6_zero_duration_single_tick (-1) 0 [1] (fun i => (i : ℚ)) (fun _ => false) 1
    (by norm_num) le_rfl (fun _ => rfl) (fun i j h => Nat.cast_le.mpr h) le_rfl

/-- Embeds the poll loop of `ParadigmRunner._wait_with_abort`
(src/rhythm/gui/gui.py, lines 487-492): polls until the clock passes
`end_time` or an abort is requested; returns the next clock index. -/
def waitLoop (endT : ℚ) (clock : ℕ → ℚ) (ab : ℕ → Bool) : ℕ → ℕ → ℕ
  | 0, i => i
  | fuel + 1, i =>
    if clock i < endT then
      if ab i then i
      else waitLoop endT clock ab fuel (i + 1)
    else i

/-- Embeds `ParadigmRunner._wait_with_abort` (src/rhythm/gui/gui.py, lines
486-492): `end_time = clock i0 + duration` (line 487), then the poll
loop. -/
def wait_with_abort (duration_s : ℚ) (clock : ℕ → ℚ) (ab : ℕ → Bool)
    (fuel i0 : ℕ) : ℕ :=
  waitLoop (clock i0 + duration_s) clock ab fuel (i0 + 1)

/-- Embeds the cue-train loop of `ParadigmRunner._run_cue_train`
(src/rhythm/gui/gui.py, lines 467-475).  The while test samples the clock
as `clock i`, the in-loop `now` as `clock (i + 1)`; a cue fires (and is
logged) when `now` reaches `next_cue_time`, which then advances by
`period` — accumulated, never recomputed from elapsed time.  Returns the
cue emission times, the final `next_cue_time`, and the next clock index. -/
def cueLoop (startT dur period : ℚ) (clock : ℕ → ℚ) (ab : ℕ → Bool) :
    ℕ → ℕ → ℚ → List ℚ × ℚ × ℕ
  | 0, i, nextT => ([], nextT, i)
  | fuel + 1, i, nextT =>
    if clock i - startT < dur then
      if ab i then ([], nextT, i)
      else if nextT ≤ clock (i + 1) then
        (clock (i + 1) ::
            (cueLoop startT dur period clock ab fuel (i + 2) (nextT + period)).1,
          (cueLoop startT dur period clock ab fuel (i + 2) (nextT + period)).2)
      else cueLoop startT dur period clock ab fuel (i + 2) nextT
    else ([], nextT, i)

/-- Embeds `ParadigmRunner._run_cue_train` (src/rhythm/gui/gui.py, lines
458-476): for `cue_frequency_hz ≤ 0` the phase degrades to
`_wait_with_abort(duration_s)` and emits nothing (lines 459-461);
otherwise `period = 1 / frequency` (line 463) and `next_cue_time` starts
at the phase-entry time `start_time = clock 0` (lines 464-465).  Returns
the logged cue times and the final clock index. -/
def run_cue_train (freq dur : ℚ) (clock : ℕ → ℚ) (ab : ℕ → Bool) (fuel : ℕ) :
    List ℚ × ℕ :=
  if freq ≤ 0 then ([], wait_with_abort dur clock ab fuel 0)
  else
    ((cueLoop (clock 0) dur (1 / freq) clock ab fuel 1 (clock 0)).1,
      (cueLoop (clock 0) dur (1 / freq) clock ab fuel 1 (clock 0)).2.2)

lemma cueLoop_schedule (startT dur period : ℚ) (clock : ℕ → ℚ) (ab : ℕ → Bool) :
    ∀ (fuel i : ℕ) (nextT : ℚ),
      (cueLoop startT dur period clock ab fuel i nextT).2.1 =
        nextT + (cueLoop startT dur period clock ab fuel i nextT).1.length * period ∧
      ∀ k, k < (cueLoop startT dur period clock ab fuel i nextT).1.length →
        nextT + k * period ≤ (cueLoop startT dur period clock ab fuel i nextT).1.getD k 0
  | 0, i, nextT => by
    rw [cueLoop]
    simp
  | fuel + 1, i, nextT => by
    rw [cueLoop]
    by_cases h1 : clock i - startT < dur
    · rw [if_pos h1]
      by_cases h2 : ab i = true
      · rw [if_pos h2]
        simp
      · rw [if_neg h2]
        by_cases h3 : nextT ≤ clock (i + 1)
        · rw [if_pos h3]
          have ih := cueLoop_schedule startT dur period clock ab fuel (i + 2)
            (nextT + period)
          constructor
          · show (cueLoop startT dur period clock ab fuel (i + 2) (nextT + period)).2.1 =
              nextT + ((clock (i + 1) ::
                (cueLoop startT dur period clock ab fuel (i + 2) (nextT + period)).1).length :
                  ℚ) * period
            rw [ih.1, List.length_cons]
            push_cast
            ring
          · intro k hk
            cases k with
            | zero =>
              simpa using h3
            | succ m =>
              have hm : m < (cueLoop startT dur period clock ab fuel (i + 2)
                  (nextT + period)).1.length := by
                simpa using hk
              have := ih.2 m hm
              show nextT + ((m + 1 : ℕ) : ℚ) * period ≤
                (cueLoop startT dur period clock ab fuel (i + 2) (nextT + period)).1.getD m 0
              calc nextT + ((m + 1 : ℕ) : ℚ) * period
                  = (nextT + period) + (m : ℚ) * period := by push_cast; ring
                _ ≤ _ := this
        · rw [if_neg h3]
          exact cueLoop_schedule startT dur period clock ab fuel (i + 2) nextT
    · rw [if_neg h1]
      simp

/-- C9: in the periodic-cue state machine, a phase with cue frequency ≤ 0
degrades to the plain abortable wait and logs no cue events; for a
positive frequency, cues are scheduled from an accumulating next-cue-time
starting at phase entry: after `n` emitted cues the internal next-cue-time
equals `start + n * period`, and the `k`-th cue fires no earlier than
`start + k * period` (with `period = 1 / frequency`). -/
theorem C9_cue_train_schedule
    (freq dur : ℚ) (clock : ℕ → ℚ) (ab : ℕ → Bool) (fuel : ℕ) :
    (freq ≤ 0 →
      run_cue_train freq dur clock ab fuel =
        ([], wait_with_abort dur clock ab fuel 0)) ∧
    (0 < freq →
      (cueLoop (clock 0) dur (1 / freq) clock ab fuel 1 (clock 0)).2.1 =
        clock 0 + (run_cue_train freq dur clock ab fuel).1.length * (1 / freq) ∧
      ∀ k, k < (run_cue_train freq dur clock ab fuel).1.length →
        clock 0 + k * (1 / freq) ≤ (run_cue_train freq dur clock ab fuel).1.getD k 0) := by
  constructor
  · intro h
    rw [run_cue_train, if_pos h]
  · intro h
    have hnle : ¬ freq ≤ 0 := not_le.mpr h
    rw [run_cue_train, if_neg hnle]
    exact cueLoop_schedule (clock 0) dur (1 / freq) clock ab fuel 1 (clock 0)

/-- Witness for C9: a zero-frequency phase is exactly the plain wait, and
at 2 Hz every cue in a concrete run respects the accumulated schedule. -/
theorem C9_cue_train_witness :
    run_cue_train 0 5 (fun i => (i : ℚ)) (fun _ => false) 3 =
      ([], wait_with_abort 5 (fun i => (i : ℚ)) (fun _ => false) 3 0) ∧
    ∀ k, k < (run_cue_train 2 3 (fun i => (i : ℚ)) (fun _ => false) 4).1.length →
      ((0 : ℕ) : ℚ) + k * (1 / 2) ≤
        (run_cue_train 2 3 (fun i => (i : ℚ)) (fun _ => false) 4).1.getD k 0 :=
  ⟨(C9_cue_train_schedule 0 5 (fun i => (i : ℚ)) (fun _ => false) 3).1 le_rfl,
    ((C9_cue_train_schedule 2 3 (fun i => (i : ℚ)) (fun _ => false) 4).2 (by norm_num)).2⟩
